import Mathlib

/-!
Shallow embedding of the laminar socket engine (`src/net/socket.rs`).

The engine code under verification is `Socket::recv_from`, `Socket::send_to`,
`Socket::manual_poll`, `Socket::handle_idle_clients`, `Socket::should_send_packet`
and `Socket::recv`.  The per-connection protocol (`VirtualConnection`) and the
active-connection table (`ActiveConnections`) are not part of the engine source;
the engine treats them as an opaque contract, and we model that contract from
the spec (§4.3, §4.4): a `ConnModel` packages the operations the engine calls,
and the table is an association list with the spec's operations.

Machine details abstracted: addresses are `Nat`, byte payloads are `List Nat`,
time is `Nat`.  The UDP endpoint is modelled by an explicit list of receive
outcomes (datagram / hard error / would-block) and an append-only list of sent
wire datagrams; the crossbeam event channel is a queue plus a liveness flag for
the consuming side (a send on an unbounded crossbeam channel fails exactly when
every receiver has been dropped).
-/

namespace Laminar

abbrev Addr := Nat
abbrev Bytes := List Nat
abbrev Time := Nat

/-- Delivery guarantee of a packet (`DeliveryGuarantee` in the source). -/
inductive DeliveryGuarantee : Type where
  | unreliable
  | reliable
deriving DecidableEq, Repr

/-- Ordering guarantee of a packet (`OrderingGuarantee` in the source). -/
inductive OrderingGuarantee : Type where
  | none
  | sequenced (stream : Option Nat)
  | ordered (stream : Option Nat)
deriving DecidableEq, Repr

/-- Application-facing packet: address, payload, delivery and ordering guarantees. -/
structure Packet : Type where
  addr : Addr
  payload : Bytes
  deliveryGuarantee : DeliveryGuarantee
  orderGuarantee : OrderingGuarantee
deriving DecidableEq, Repr

/-- Type `SocketEvent`: what the engine pushes onto the event channel. -/
inductive SocketEvent : Type where
  | connect (addr : Addr)
  | packet (p : Packet)
  | timeout (addr : Addr)
deriving DecidableEq, Repr

/-- Type `Outgoing`: wire datagrams produced by `process_outgoing` — either a single
datagram or an ordered list of fragment datagrams. -/
inductive Outgoing : Type where
  | packet (contents : Bytes)
  | fragments (contents : List Bytes)
deriving DecidableEq, Repr

/-- The wire datagrams an `Outgoing` value contains, in order. -/
def Outgoing.datagrams : Outgoing → List Bytes
  | .packet c => [c]
  | .fragments cs => cs

/-- A dropped reliable payload held for retransmission, as returned by
`gather_dropped_packets`: original payload, ordering guarantee and item
identifier, captured at first send. -/
structure WaitingPacket : Type where
  payload : Bytes
  orderingGuarantee : OrderingGuarantee
  itemIdentifier : Option Nat
deriving DecidableEq, Repr

/-- Error kinds the engine distinguishes (`ErrorKind` in the source): would-block
I/O, other I/O errors, the zero-length-datagram error, event-channel send
failure, and protocol-level rejections from `process_outgoing` /
`process_incoming` (carrying an abstract code). -/
inductive ErrorKind : Type where
  | ioWouldBlock
  | ioOther
  | receivedDataToShort
  | sendError
  | protocolError (code : Nat)
deriving DecidableEq, Repr

/-- Engine configuration; only `idle_connection_timeout` is consulted by the
engine code itself. -/
structure Config : Type where
  idleConnectionTimeout : Nat
deriving DecidableEq, Repr

/-- Modelled from the spec (§4.3): the connection-state contract.  The
connection type `C` is opaque to the engine; a `ConnModel` supplies the
operations `Socket` calls on it.  `process_outgoing` may rewrite connection
state and either yield an `Outgoing` or fail; `process_incoming` may rewrite
state, emit events into the sink, and report an error; `gather_dropped_packets`
removes and returns the waiting packets now deemed dropped; `last_heard_at`
reports the most recent inbound activity. -/
structure ConnModel (C : Type) : Type where
  create : Config → Addr → Time → C
  createAnonymous : Config → Addr → Time → C
  processOutgoing : C → Bytes → DeliveryGuarantee → OrderingGuarantee →
      Option Nat → Time → C × Except ErrorKind Outgoing
  processIncoming : C → Bytes → Time → C × List SocketEvent × Option ErrorKind
  gatherDroppedPackets : C → C × List WaitingPacket
  lastHeardAt : C → Time

/-- Modelled from the spec (§4.4): the active-connection table as an
association list from peer address to connection state. -/
abbrev ConnTable (C : Type) := List (Addr × C)

/-- Table lookup. -/
def lookupConn {C : Type} (t : ConnTable C) (a : Addr) : Option C :=
  match t with
  | [] => Option.none
  | (a', c) :: rest => if a' = a then some c else lookupConn rest a

/-- Modelled from the spec (§4.4): `exists(addr)`. -/
def connExists {C : Type} (t : ConnTable C) (a : Addr) : Bool :=
  (lookupConn t a).isSome

/-- Replace the value stored at an address, leaving keys untouched. -/
def updateConn {C : Type} (t : ConnTable C) (a : Addr) (c : C) : ConnTable C :=
  t.map (fun p => if p.1 = a then (a, c) else p)

/-- Modelled from the spec (§4.4): `remove_connection(addr)`. -/
def removeConn {C : Type} (t : ConnTable C) (a : Addr) : ConnTable C :=
  t.filter (fun p => p.1 ≠ a)

/-- Modelled from the spec (§4.4): `get_or_insert_connection` — the send path's
table access.  If no entry exists one is created and installed; the live entry
and the updated table are returned. -/
def get_or_insert_connection {C : Type} (M : ConnModel C) (t : ConnTable C)
    (cfg : Config) (a : Addr) (time : Time) : ConnTable C × C :=
  match lookupConn t a with
  | some c => (t, c)
  | Option.none =>
      let c := M.create cfg a time
      (t ++ [(a, c)], c)

/-- Modelled from the spec (§4.4): `idle_connections(timeout, now)` — the
addresses whose `last_heard_at` is older than `now − timeout`, in table order. -/
def idle_connections {C : Type} (M : ConnModel C) (t : ConnTable C)
    (timeout now : Nat) : List Addr :=
  (t.filter (fun p => M.lastHeardAt p.2 + timeout < now)).map Prod.fst

/-- State of the link conditioner: a predetermined stream of `should_send`
decisions and a cursor recording how many decisions have been consumed.  The
cursor doubles as the count of consultations. -/
structure LinkConditioner : Type where
  decisions : Nat → Bool
  idx : Nat

/-- The engine-visible state threaded through one `manual_poll` tick:
the connection table, the event-channel queue (with the liveness of its
consuming side), the wire datagrams written to the UDP endpoint so far,
the optional link conditioner, and the log of errors reported via `error!`. -/
structure EngineState (C : Type) : Type where
  connections : ConnTable C
  eventQueue : List SocketEvent
  receiverAlive : Bool
  wireOut : List (Addr × Bytes)
  linkConditioner : Option LinkConditioner
  errorLog : List ErrorKind

/-- Channel send `event_sender.send(event)`: appending to an unbounded crossbeam channel,
which fails exactly when every receiver has been dropped. -/
def sendEvent {C : Type} (st : EngineState C) (e : SocketEvent) :
    EngineState C × Option ErrorKind :=
  if st.receiverAlive then
    ({ st with eventQueue := st.eventQueue ++ [e] }, Option.none)
  else
    (st, some .sendError)

/-- Append an error to the log (an `error!` call). -/
def logError {C : Type} (st : EngineState C) (e : ErrorKind) : EngineState C :=
  { st with errorLog := st.errorLog ++ [e] }

/-- Source `should_send_packet`: consult the link conditioner when one is set
(consuming one decision), otherwise answer `true`. -/
def should_send_packet {C : Type} (st : EngineState C) : Bool × EngineState C :=
  match st.linkConditioner with
  | some lc =>
      (lc.decisions lc.idx,
        { st with linkConditioner := some { lc with idx := lc.idx + 1 } })
  | Option.none => (true, st)

/-- Source `send_packet`: write one wire datagram to the UDP endpoint and return the
byte count.  The endpoint is modelled as always accepting the datagram. -/
def send_packet {C : Type} (st : EngineState C) (a : Addr) (payload : Bytes) :
    EngineState C × Nat :=
  ({ st with wireOut := st.wireOut ++ [(a, payload)] }, payload.length)

/-- The inner loop of `send_to`'s send phase: write each wire datagram of one
`Outgoing` via `send_packet`, accumulating the bytes written. -/
def sendDatagrams {C : Type} (st : EngineState C) (a : Addr) :
    List Bytes → Nat → EngineState C × Nat
  | [], acc => (st, acc)
  | d :: ds, acc =>
      let sp := send_packet st a d
      sendDatagrams sp.1 a ds (acc + sp.2)

/-- The send loop at the end of `send_to`: for each `Outgoing`, consult
`should_send_packet` once; if it permits, write every wire datagram that
`Outgoing` contains, accumulating the bytes written. -/
def sendOutgoings {C : Type} (st : EngineState C) (a : Addr) :
    List Outgoing → EngineState C × Nat
  | [] => (st, 0)
  | o :: rest =>
      let pr := should_send_packet st
      let sd := if pr.1 then sendDatagrams pr.2 a o.datagrams 0 else (pr.2, 0)
      let tail := sendOutgoings sd.1 a rest
      (tail.1, sd.2 + tail.2)

/-- The `flat_map` over the dropped waiting packets in `send_to`: each is
re-processed through `process_outgoing` with `Reliable` delivery, its original
ordering guarantee and its original item identifier.  `flat_map` over a Rust
`Result` keeps `Ok` values and silently discards `Err` values, so a failing
call contributes nothing; connection-state mutations persist either way. -/
def processDropped {C : Type} (M : ConnModel C) (conn : C)
    (time : Time) : List WaitingPacket → C × List Outgoing
  | [] => (conn, [])
  | wp :: rest =>
      let (conn1, res) := M.processOutgoing conn wp.payload .reliable
        wp.orderingGuarantee wp.itemIdentifier time
      let (conn2, outs) := processDropped M conn1 time rest
      match res with
      | .ok o => (conn2, o :: outs)
      | .error _ => (conn2, outs)

/-- Source `Socket::send_to`: fetch (or insert) the connection for the packet's
address, gather its dropped waiting packets, re-process each with `Reliable`
delivery, process the fresh submission with item identifier `None` (its error
aborting the packet), then push the resulting `Outgoing` values — dropped
first, then the fresh one — through the conditioner-gated send loop. -/
def send_to {C : Type} (M : ConnModel C) (cfg : Config) (st : EngineState C)
    (p : Packet) (time : Time) : EngineState C × Except ErrorKind Nat :=
  let gi := get_or_insert_connection M st.connections cfg p.addr time
  let gd := M.gatherDroppedPackets gi.2
  let pd := processDropped M gd.1 time gd.2
  let po := M.processOutgoing pd.1 p.payload p.deliveryGuarantee
    p.orderGuarantee Option.none time
  let st1 := { st with connections := updateConn gi.1 p.addr po.1 }
  match po.2 with
  | .error e => (st1, .error e)
  | .ok fresh =>
      let so := sendOutgoings st1 p.addr (pd.2 ++ [fresh])
      (so.1, .ok so.2)

/-- One outcome of a non-blocking receive on the UDP endpoint: a datagram, a
hard I/O error, or a would-block indication. -/
inductive RecvStep : Type where
  | datagram (addr : Addr) (bytes : Bytes)
  | hardError
  | wouldBlock
deriving DecidableEq

/-- Return value of `recv_from` on success (`UdpSocketState` in the source). -/
inductive UdpSocketState : Type where
  | empty
  | maybeMore
deriving DecidableEq, Repr

/-- Source `Socket::recv_from` on one endpoint outcome.  A zero-length datagram is the
short-receive error; for an unknown source a `Connect` event is emitted first;
the datagram is processed through the existing entry (written back in place) or
through a transient anonymous connection (discarded); events the connection
emits go onto the event channel before any error is surfaced.  Would-block
yields `Ok(Empty)`; a hard error is logged and returned as `Err`. -/
def recv_from {C : Type} (M : ConnModel C) (cfg : Config) (st : EngineState C)
    (step : RecvStep) (time : Time) :
    EngineState C × Except ErrorKind UdpSocketState :=
  match step with
  | .wouldBlock => (st, .ok .empty)
  | .hardError => (logError st .ioOther, .error .ioOther)
  | .datagram a bytes =>
      if bytes.length = 0 then (st, .error .receivedDataToShort)
      else
        let (st1, connectErr) :=
          if connExists st.connections a then (st, Option.none)
          else sendEvent st (.connect a)
        match connectErr with
        | some e => (st1, .error e)
        | Option.none =>
            match lookupConn st1.connections a with
            | some c =>
                let (c', evs, incomingErr) := M.processIncoming c bytes time
                let st2 := { st1 with
                  connections := updateConn st1.connections a c',
                  eventQueue :=
                    st1.eventQueue ++ (if st1.receiverAlive then evs else []) }
                match incomingErr with
                | some e => (st2, .error e)
                | Option.none => (st2, .ok .maybeMore)
            | Option.none =>
                let anon := M.createAnonymous cfg a time
                let (_, evs, incomingErr) := M.processIncoming anon bytes time
                let st2 := { st1 with
                  eventQueue :=
                    st1.eventQueue ++ (if st1.receiverAlive then evs else []) }
                match incomingErr with
                | some e => (st2, .error e)
                | Option.none => (st2, .ok .maybeMore)

/-- The state after one iteration of `manual_poll`'s receive loop on outcome
`s`: `recv_from` runs, and when it reports an error `manual_poll` logs it.
(For a would-block outcome the loop has already exited, so this is only
applied to datagram and hard-error outcomes.) -/
def recvAdvance {C : Type} (M : ConnModel C) (cfg : Config) (st : EngineState C)
    (s : RecvStep) (time : Time) : EngineState C :=
  match recv_from M cfg st s time with
  | (st', .ok _) => st'
  | (st', .error e) => logError st' e

/-- Source `manual_poll`, receive loop (Phase R): repeatedly call `recv_from`; on
`Ok(MaybeMore)` continue, on `Ok(Empty)` (would-block) stop, and on `Err` log
the error and continue.  The endpoint's pending outcomes are an explicit list;
its exhaustion also ends the loop. -/
def recvLoop {C : Type} (M : ConnModel C) (cfg : Config) (st : EngineState C)
    (time : Time) : List RecvStep → EngineState C
  | [] => st
  | s :: rest =>
      match recv_from M cfg st s time with
      | (st', .ok .maybeMore) => recvLoop M cfg st' time rest
      | (st', .ok .empty) => st'
      | (st', .error e) => recvLoop M cfg (logError st' e) time rest

/-- Source `manual_poll`, send loop (Phase S): drain the submitted-packet channel,
calling `send_to` on each packet; a would-block error is swallowed, any other
error is logged; the loop always moves on to the next packet. -/
def sendLoop {C : Type} (M : ConnModel C) (cfg : Config) (st : EngineState C)
    (time : Time) : List Packet → EngineState C
  | [] => st
  | p :: rest =>
      match send_to M cfg st p time with
      | (st', .ok _) => sendLoop M cfg st' time rest
      | (st', .error .ioWouldBlock) => sendLoop M cfg st' time rest
      | (st', .error e) => sendLoop M cfg (logError st' e) time rest

/-- One step of `handle_idle_clients`'s loop: remove the address from the
table, then emit `SocketEvent::Timeout(addr)` — the emission happens on the
state from which the address has already been removed. -/
def idleStep {C : Type} (st : EngineState C) (a : Addr) :
    EngineState C × Option ErrorKind :=
  sendEvent { st with connections := removeConn st.connections a } (.timeout a)

/-- The loop body of `handle_idle_clients` over the idle-address list; the `?`
on the channel send aborts the loop on the first send failure. -/
def idleFold {C : Type} (st : EngineState C) :
    List Addr → EngineState C × Option ErrorKind
  | [] => (st, Option.none)
  | a :: rest =>
      match idleStep st a with
      | (st1, some e) => (st1, some e)
      | (st1, Option.none) => idleFold st1 rest

/-- Source `Socket::handle_idle_clients` (Phase T): compute the idle addresses, then
for each one remove it from the table and emit a `Timeout` event. -/
def handle_idle_clients {C : Type} (M : ConnModel C) (cfg : Config)
    (st : EngineState C) (time : Time) : EngineState C × Option ErrorKind :=
  idleFold st
    (idle_connections M st.connections cfg.idleConnectionTimeout time)

/-- Source `Socket::manual_poll`: Phase R (receive loop), Phase S (send loop), then
Phase T (`handle_idle_clients`, whose error is logged). -/
def manual_poll {C : Type} (M : ConnModel C) (cfg : Config) (st : EngineState C)
    (inbound : List RecvStep) (submitted : List Packet) (time : Time) :
    EngineState C :=
  let st1 := recvLoop M cfg st time inbound
  let st2 := sendLoop M cfg st1 time submitted
  match handle_idle_clients M cfg st2 time with
  | (st3, some e) => logError st3 e
  | (st3, Option.none) => st3

/-- A crossbeam-style channel endpoint as `Socket::recv` sees it: the queued
values plus whether any sender handle is still alive. -/
structure Channel (α : Type) : Type where
  queue : List α
  senderAlive : Bool

/-- Errors of `try_recv` (`TryRecvError` in crossbeam). -/
inductive TryRecvError : Type where
  | empty
  | disconnected
deriving DecidableEq, Repr

/-- Crossbeam `Receiver::try_recv`: pop the head if present; on an empty queue report
`Empty` while a sender is alive and `Disconnected` once all senders are gone. -/
def tryRecv {α : Type} (ch : Channel α) : Except TryRecvError α × Channel α :=
  match ch.queue with
  | e :: rest => (.ok e, { ch with queue := rest })
  | [] =>
      if ch.senderAlive then (.error .empty, ch)
      else (.error .disconnected, ch)

/-- The observable outcome of `Socket::recv`: an event, no event, or the
`panic!` in the `Disconnected` arm. -/
inductive RecvOutcome : Type where
  | event (e : SocketEvent)
  | noEvent
  | panicked
deriving DecidableEq, Repr

/-- Source `Socket::recv`: non-blocking dequeue from the event channel; `Ok` yields
the event, `Empty` yields nothing, and `Disconnected` hits the `panic!` arm. -/
def socketRecv (ch : Channel SocketEvent) : RecvOutcome × Channel SocketEvent :=
  match tryRecv ch with
  | (.ok e, ch') => (.event e, ch')
  | (.error .empty, ch') => (.noEvent, ch')
  | (.error .disconnected, ch') => (.panicked, ch')

/-- The engine state of a freshly bound socket: empty table, empty queues, no
link conditioner, and a live event receiver (the `Socket` itself holds one). -/
def initialEngineState {C : Type} : EngineState C :=
  { connections := []
    eventQueue := []
    receiverAlive := true
    wireOut := []
    linkConditioner := Option.none
    errorLog := [] }

/-- An unreliable, unordered packet (`Packet::unreliable` in the source). -/
def unreliablePacket (a : Addr) (payload : Bytes) : Packet :=
  { addr := a, payload := payload
    deliveryGuarantee := .unreliable, orderGuarantee := .none }

/-- A concrete connection model used to evaluate the receive path: an inbound
datagram `[0]` is rejected as malformed, anything else yields one `Packet`
event carrying the bytes. -/
def pingModel : ConnModel Unit where
  create _ _ _ := ()
  createAnonymous _ _ _ := ()
  processOutgoing c payload _ _ _ _ := (c, .ok (.packet payload))
  processIncoming c bytes _ :=
    if bytes = [0] then (c, [], some (.protocolError 3))
    else (c, [.packet (unreliablePacket 5 bytes)], Option.none)
  gatherDroppedPackets c := (c, [])
  lastHeardAt _ := 0

/-- A concrete connection model used to evaluate the send path: every send
gathers one dropped waiting packet (payload `[9]`, item identifier `4`), and
`process_outgoing` always succeeds with a single datagram. -/
def okModel : ConnModel Nat where
  create _ _ _ := 0
  createAnonymous _ _ _ := 0
  processOutgoing c payload _ _ _ _ := (c + 1, .ok (.packet payload))
  processIncoming c _ _ := (c, [], Option.none)
  gatherDroppedPackets c := (c, [⟨[9], .none, some 4⟩])
  lastHeardAt _ := 0

/-- A concrete connection model whose gathered dropped packet (payload `[99]`)
is rejected by `process_outgoing`, while any other payload succeeds. -/
def dropFailModel : ConnModel Nat where
  create _ _ _ := 0
  createAnonymous _ _ _ := 0
  processOutgoing c payload _ _ _ _ :=
    if payload = [99] then (c, .error (.protocolError 7))
    else (c, .ok (.packet payload))
  processIncoming c _ _ := (c, [], Option.none)
  gatherDroppedPackets c := (c, [⟨[99], .none, some 4⟩])
  lastHeardAt _ := 0

/-- A concrete connection model whose `process_outgoing` always fragments the
submission into the two wire datagrams `[1]` and `[2]`. -/
def fragModel : ConnModel Unit where
  create _ _ _ := ()
  createAnonymous _ _ _ := ()
  processOutgoing c _ _ _ _ _ := (c, .ok (.fragments [[1], [2]]))
  processIncoming c _ _ := (c, [], Option.none)
  gatherDroppedPackets c := (c, [])
  lastHeardAt _ := 0

/-- A concrete connection model whose `process_outgoing` always fails (an
oversized unreliable payload, say). -/
def alwaysFailModel : ConnModel Unit where
  create _ _ _ := ()
  createAnonymous _ _ _ := ()
  processOutgoing c _ _ _ _ _ := (c, .error (.protocolError 9))
  processIncoming c _ _ := (c, [], Option.none)
  gatherDroppedPackets c := (c, [])
  lastHeardAt _ := 0

lemma lookupConn_eq_none {C : Type} {t : ConnTable C} {a : Addr}
    (h : connExists t a = false) : lookupConn t a = Option.none := by
  cases hc : lookupConn t a with
  | none => rfl
  | some c => simp [connExists, hc] at h

lemma connExists_iff_mem {C : Type} (t : ConnTable C) (a : Addr) :
    connExists t a = true ↔ a ∈ t.map Prod.fst := by
  induction t with
  | nil => simp [connExists, lookupConn]
  | cons p rest ih =>
      rcases p with ⟨a', c⟩
      by_cases h : a' = a
      · simp [connExists, lookupConn, h]
      · simpa [connExists, lookupConn, h, Ne.symm h] using ih

lemma connExists_congr {C D : Type} {t : ConnTable C} {t' : ConnTable D}
    (h : t.map Prod.fst = t'.map Prod.fst) (a : Addr) :
    connExists t a = connExists t' a := by
  rw [Bool.eq_iff_iff, connExists_iff_mem, connExists_iff_mem, h]

lemma updateConn_map_fst {C : Type} (t : ConnTable C) (a : Addr) (c : C) :
    (updateConn t a c).map Prod.fst = t.map Prod.fst := by
  induction t with
  | nil => rfl
  | cons p rest ih =>
      by_cases h : p.1 = a <;> simp [updateConn, h] at ih ⊢ <;>
        simpa [updateConn, h] using ih

lemma connExists_updateConn {C : Type} (t : ConnTable C) (a b : Addr) (c : C) :
    connExists (updateConn t a c) b = connExists t b :=
  connExists_congr (updateConn_map_fst t a c) b

lemma connExists_get_or_insert {C : Type} (M : ConnModel C) (t : ConnTable C)
    (cfg : Config) (a : Addr) (time : Time) :
    connExists (get_or_insert_connection M t cfg a time).1 a = true := by
  cases hc : lookupConn t a with
  | none =>
      rw [get_or_insert_connection, hc, connExists_iff_mem]
      simp
  | some c =>
      rw [get_or_insert_connection, hc]
      simp [connExists, hc]

lemma connExists_removeConn_self {C : Type} (t : ConnTable C) (a : Addr) :
    connExists (removeConn t a) a = false := by
  induction t with
  | nil => rfl
  | cons p rest ih =>
      by_cases h : p.1 = a
      · simpa [removeConn, h] using ih
      · simpa [removeConn, connExists, lookupConn, h] using ih

lemma connExists_removeConn_of_false {C : Type} {t : ConnTable C} {a : Addr}
    (b : Addr) (h : connExists t a = false) :
    connExists (removeConn t b) a = false := by
  induction t with
  | nil => rfl
  | cons p rest ih =>
      have hrest : connExists rest a = false := by
        cases hp : connExists rest a with
        | false => rfl
        | true =>
            rw [connExists_iff_mem] at hp
            rw [Bool.eq_false_iff] at h
            exact absurd ((connExists_iff_mem _ _).2 (by simp [hp])) h
      by_cases hb : p.1 = b
      · simpa [removeConn, List.filter_cons, hb] using ih hrest
      · have hpa : p.1 ≠ a := by
          intro hpa
          rw [Bool.eq_false_iff] at h
          exact h ((connExists_iff_mem _ _).2 (by simp [hpa]))
        simpa [removeConn, List.filter_cons, connExists, lookupConn, hb, hpa]
          using ih hrest

lemma foldl_removeConn_preserves {C : Type} :
    ∀ (l : List Addr) (t : ConnTable C) (a : Addr),
      connExists t a = false →
      connExists (l.foldl (fun t' b => removeConn t' b) t) a = false := by
  intro l
  induction l with
  | nil => intro t a h; simpa using h
  | cons b rest ih =>
      intro t a h
      simpa using ih (removeConn t b) a (connExists_removeConn_of_false b h)

lemma foldl_removeConn_absent {C : Type} :
    ∀ (l : List Addr) (t : ConnTable C) (a : Addr), a ∈ l →
      connExists (l.foldl (fun t' b => removeConn t' b) t) a = false := by
  intro l
  induction l with
  | nil => intro t a h; cases h
  | cons b rest ih =>
      intro t a h
      rcases List.mem_cons.1 h with h | h
      · subst h
        simpa using foldl_removeConn_preserves rest (removeConn t a) a
          (connExists_removeConn_self t a)
      · simpa using ih (removeConn t b) a h

lemma logError_connections {C : Type} (st : EngineState C) (e : ErrorKind) :
    (logError st e).connections = st.connections := rfl

lemma recv_from_connections_map_fst {C : Type} (M : ConnModel C) (cfg : Config)
    (st : EngineState C) (s : RecvStep) (time : Time) :
    ((recv_from M cfg st s time).1).connections.map Prod.fst
      = st.connections.map Prod.fst := by
  cases s with
  | wouldBlock => rfl
  | hardError => rfl
  | datagram a bytes =>
      by_cases hlen : bytes.length = 0
      · simp [recv_from, hlen]
      · by_cases hex : connExists st.connections a
        · cases hc : lookupConn st.connections a with
          | none => simp [connExists, hc] at hex
          | some c =>
              rcases hpi : M.processIncoming c bytes time with ⟨c', evs, err⟩
              cases err <;>
                simp [recv_from, hlen, hex, hc, hpi, updateConn_map_fst]
        · rw [Bool.not_eq_true] at hex
          have hc : lookupConn st.connections a = Option.none :=
            lookupConn_eq_none hex
          rcases hpi : M.processIncoming (M.createAnonymous cfg a time) bytes time
            with ⟨c', evs, err⟩
          by_cases halive : st.receiverAlive <;> cases err <;>
            simp [recv_from, hlen, hex, hc, hpi, sendEvent, halive]

lemma recvLoop_connections_map_fst {C : Type} (M : ConnModel C) (cfg : Config)
    (time : Time) :
    ∀ (steps : List RecvStep) (st : EngineState C),
      (recvLoop M cfg st time steps).connections.map Prod.fst
        = st.connections.map Prod.fst := by
  intro steps
  induction steps with
  | nil => intro st; rfl
  | cons s rest ih =>
      intro st
      have hkeys := recv_from_connections_map_fst M cfg st s time
      rcases h : recv_from M cfg st s time with ⟨st', r⟩
      rw [h] at hkeys
      cases r with
      | ok u =>
          cases u with
          | empty => simpa [recvLoop, h] using hkeys
          | maybeMore => rw [recvLoop, h]; rw [ih st']; exact hkeys
      | error e =>
          rw [recvLoop, h, ih (logError st' e), logError_connections]
          exact hkeys

lemma recv_from_unknown {C : Type} (M : ConnModel C) (cfg : Config)
    (st : EngineState C) (time : Time) (a : Addr) (bytes : Bytes)
    (hex : connExists st.connections a = false) (hlen : bytes.length ≠ 0)
    (halive : st.receiverAlive = true) :
    (recv_from M cfg st (.datagram a bytes) time).1.connections = st.connections
    ∧ (recv_from M cfg st (.datagram a bytes) time).1.eventQueue =
        st.eventQueue ++ SocketEvent.connect a ::
          (M.processIncoming (M.createAnonymous cfg a time) bytes time).2.1 := by
  have hc : lookupConn st.connections a = Option.none := lookupConn_eq_none hex
  rcases hpi : M.processIncoming (M.createAnonymous cfg a time) bytes time
    with ⟨c', evs, err⟩
  cases err <;> simp [recv_from, hlen, hex, hc, hpi, sendEvent, halive]

lemma sendDatagrams_eq {C : Type} (a : Addr) :
    ∀ (ds : List Bytes) (st : EngineState C) (acc : Nat),
      sendDatagrams st a ds acc
        = ({ st with wireOut := st.wireOut ++ ds.map (fun d => (a, d)) },
            acc + (ds.map List.length).sum) := by
  intro ds
  induction ds with
  | nil => intro st acc; simp [sendDatagrams]
  | cons d rest ih =>
      intro st acc
      rw [sendDatagrams]
      simp only [send_packet]
      rw [ih]
      simp [Nat.add_assoc]

lemma sendOutgoings_condNone {C : Type} (a : Addr) :
    ∀ (outs : List Outgoing) (st : EngineState C),
      st.linkConditioner = Option.none →
      sendOutgoings st a outs =
        ({ st with wireOut := st.wireOut ++
            (outs.flatMap Outgoing.datagrams).map (fun d => (a, d)) },
          ((outs.flatMap Outgoing.datagrams).map List.length).sum) := by
  intro outs
  induction outs with
  | nil => intro st h; simp [sendOutgoings]
  | cons o rest ih =>
      intro st h
      have hss : should_send_packet st = (true, st) := by
        simp [should_send_packet, h]
      have hrest := ih
        { st with wireOut := st.wireOut ++ o.datagrams.map (fun d => (a, d)) }
        (by simpa using h)
      simp [sendOutgoings, hss, sendDatagrams_eq, hrest, List.flatMap_cons,
        List.append_assoc]

lemma sendOutgoings_conditioner {C : Type} (a : Addr) :
    ∀ (outs : List Outgoing) (st : EngineState C) (dec : Nat → Bool) (i : Nat),
      st.linkConditioner = some ⟨dec, i⟩ →
      (sendOutgoings st a outs).1.linkConditioner
        = some ⟨dec, i + outs.length⟩ := by
  intro outs
  induction outs with
  | nil => intro st dec i h; simpa [sendOutgoings] using h
  | cons o rest ih =>
      intro st dec i h
      have hss : should_send_packet st =
          (dec i, { st with linkConditioner := some ⟨dec, i + 1⟩ }) := by
        simp [should_send_packet, h]
      have hlen : i + 1 + rest.length = i + (rest.length + 1) := by omega
      cases hdec : dec i with
      | true =>
          have hrest := ih
            { st with
              linkConditioner := some (LinkConditioner.mk dec (i + 1))
              wireOut := st.wireOut ++ o.datagrams.map (fun d => (a, d)) }
            dec (i + 1) (by simp)
          simp [sendOutgoings, hss, hdec, sendDatagrams_eq, hrest, hlen]
      | false =>
          have hrest := ih
            { st with linkConditioner := some ⟨dec, i + 1⟩ }
            dec (i + 1) (by simp)
          simp [sendOutgoings, hss, hdec, hrest, hlen]

/-- Stated from the claim (C3, spec §4.5.1 steps 3–5), for comparison with the
source-side `processDropped`: each dropped waiting packet is processed through
`process_outgoing` with `Reliable` delivery, its original ordering guarantee
and its original item identifier, in order; the description presumes every call
succeeds, so a failing call yields no result (`none`). -/
def specRetransmit {C : Type} (M : ConnModel C) (time : Time) :
    C → List WaitingPacket → Option (C × List Outgoing)
  | conn, [] => some (conn, [])
  | conn, wp :: rest =>
      match M.processOutgoing conn wp.payload .reliable wp.orderingGuarantee
        wp.itemIdentifier time with
      | (conn', .ok o) =>
          match specRetransmit M time conn' rest with
          | some (c, outs) => some (c, o :: outs)
          | Option.none => Option.none
      | (_, .error _) => Option.none

lemma processDropped_of_spec {C : Type} (M : ConnModel C) (time : Time) :
    ∀ (l : List WaitingPacket) (conn c : C) (outs : List Outgoing),
      specRetransmit M time conn l = some (c, outs) →
      processDropped M conn time l = (c, outs) := by
  intro l
  induction l with
  | nil =>
      intro conn c outs h
      simp [specRetransmit] at h
      simp [processDropped, h.1, h.2]
  | cons wp rest ih =>
      intro conn c outs h
      rcases hpo : M.processOutgoing conn wp.payload .reliable
          wp.orderingGuarantee wp.itemIdentifier time with ⟨conn', res⟩
      cases res with
      | error e => rw [specRetransmit, hpo] at h; cases h
      | ok o =>
          simp only [specRetransmit, hpo] at h
          rcases hs : specRetransmit M time conn' rest with _ | ⟨c', outs'⟩
          · rw [hs] at h; cases h
          · rw [hs] at h
            simp only [Option.some.injEq, Prod.mk.injEq] at h
            rw [processDropped, hpo]
            simp only
            rw [ih conn' c' outs' hs]
            simp [h.1, h.2]

lemma idleStep_alive {C : Type} (st : EngineState C) (a : Addr)
    (h : st.receiverAlive = true) :
    idleStep st a =
      ({ st with
          connections := removeConn st.connections a
          eventQueue := st.eventQueue ++ [SocketEvent.timeout a] },
        Option.none) := by
  simp [idleStep, sendEvent, h]

lemma idleFold_alive {C : Type} :
    ∀ (l : List Addr) (st : EngineState C), st.receiverAlive = true →
      (idleFold st l).2 = Option.none
      ∧ (idleFold st l).1.eventQueue = st.eventQueue ++ l.map SocketEvent.timeout
      ∧ (idleFold st l).1.connections
          = l.foldl (fun t' b => removeConn t' b) st.connections
      ∧ (idleFold st l).1.receiverAlive = true := by
  intro l
  induction l with
  | nil => intro st h; simp [idleFold, h]
  | cons a rest ih =>
      intro st h
      rw [idleFold, idleStep_alive st a h]
      simp only
      have := ih
        { st with
          connections := removeConn st.connections a
          eventQueue := st.eventQueue ++ [SocketEvent.timeout a] } (by simpa using h)
      simpa [List.append_assoc] using this

lemma should_send_packet_connections {C : Type} (st : EngineState C) :
    (should_send_packet st).2.connections = st.connections := by
  cases h : st.linkConditioner <;> simp [should_send_packet, h]

lemma sendOutgoings_connections {C : Type} (a : Addr) :
    ∀ (outs : List Outgoing) (st : EngineState C),
      (sendOutgoings st a outs).1.connections = st.connections := by
  intro outs
  induction outs with
  | nil => intro st; rfl
  | cons o rest ih =>
      intro st
      have hconn := should_send_packet_connections st
      rcases hssp : should_send_packet st with ⟨permit, st1⟩
      rw [hssp] at hconn
      simp only [sendOutgoings, hssp]
      cases permit
      · simpa [ih] using hconn
      · simpa [ih, sendDatagrams_eq] using hconn

/-- Claim C9: `Socket::recv` is a total non-blocking dequeue.  While a sender
handle is alive — and the `Socket` itself owns `event_sender` for the lifetime
of any `recv` call — the `Disconnected` branch (the only `panic!`) is
unreachable: `recv` returns the queued head event when one exists and nothing
when the queue is empty. -/
theorem recv_total_nonblocking_dequeue (ch : Channel SocketEvent)
    (halive : ch.senderAlive = true) :
    (socketRecv ch).1 ≠ RecvOutcome.panicked
    ∧ (ch.queue = [] → socketRecv ch = (RecvOutcome.noEvent, ch))
    ∧ ∀ (e : SocketEvent) (rest : List SocketEvent), ch.queue = e :: rest →
        socketRecv ch = (RecvOutcome.event e, { ch with queue := rest }) := by
  rcases ch with ⟨queue, alive⟩
  cases alive with
  | false => cases halive
  | true =>
      cases queue with
      | nil => simp [socketRecv, tryRecv]
      | cons e rest => simp [socketRecv, tryRecv]

/-- Witness for C9 at a concrete channel: one queued `Connect` event, sender
alive. -/
theorem recv_total_nonblocking_dequeue_witness :
    socketRecv ⟨[SocketEvent.connect 5], true⟩ =
      (RecvOutcome.event (SocketEvent.connect 5), ⟨[], true⟩) :=
  (recv_total_nonblocking_dequeue ⟨[SocketEvent.connect 5], true⟩ rfl).2.2
    (SocketEvent.connect 5) [] rfl

/-- Claim C1: the receive path never inserts into the connection table.  Over
a whole Phase R loop the table's key set is unchanged, and for a single
datagram from an unknown peer the table is left untouched — the peer is still
absent afterwards — while processing goes through a transient anonymous
connection (`create_anonymous`) whose events are still emitted after the
`Connect`. -/
theorem receive_path_never_inserts {C : Type} (M : ConnModel C) (cfg : Config)
    (st : EngineState C) (time : Time) :
    (∀ steps : List RecvStep,
      (recvLoop M cfg st time steps).connections.map Prod.fst
        = st.connections.map Prod.fst)
    ∧ ∀ (a : Addr) (bytes : Bytes),
        connExists st.connections a = false → bytes.length ≠ 0 →
        st.receiverAlive = true →
        (recv_from M cfg st (.datagram a bytes) time).1.connections
            = st.connections
        ∧ connExists
            ((recv_from M cfg st (.datagram a bytes) time).1).connections a
              = false
        ∧ (recv_from M cfg st (.datagram a bytes) time).1.eventQueue =
            st.eventQueue ++ SocketEvent.connect a ::
              (M.processIncoming (M.createAnonymous cfg a time) bytes time).2.1 := by
  refine ⟨fun steps => recvLoop_connections_map_fst M cfg time steps st,
    fun a bytes hex hlen halive => ?_⟩
  obtain ⟨hconn, hqueue⟩ := recv_from_unknown M cfg st time a bytes hex hlen halive
  exact ⟨hconn, by rw [hconn]; exact hex, hqueue⟩

/-- Witness for C1: a datagram from unknown peer 5 processed on an empty
table leaves the table empty and emits `Connect` then the derived event. -/
theorem receive_path_never_inserts_witness :
    (recv_from pingModel ⟨1⟩ initialEngineState (.datagram 5 [1]) 0).1.connections
        = (initialEngineState (C := Unit)).connections
    ∧ connExists
        ((recv_from pingModel ⟨1⟩ initialEngineState (.datagram 5 [1]) 0).1).connections 5
          = false
    ∧ (recv_from pingModel ⟨1⟩ initialEngineState (.datagram 5 [1]) 0).1.eventQueue =
        (initialEngineState (C := Unit)).eventQueue ++ SocketEvent.connect 5 ::
          (pingModel.processIncoming (pingModel.createAnonymous ⟨1⟩ 5 0) [1] 0).2.1 :=
  (receive_path_never_inserts pingModel ⟨1⟩ initialEngineState 0).2 5 [1]
    rfl (by decide) rfl

/-- Claim C2: for a first-contact datagram the `Connect` event is emitted on
the event channel before any event derived from that datagram: the queue after
`recv_from` is the old queue, then `Connect(addr)`, then the derived events; in
particular every derived event sits strictly after that `Connect` on the
channel. -/
theorem connect_before_derived_packets {C : Type} (M : ConnModel C)
    (cfg : Config) (st : EngineState C) (time : Time) (a : Addr) (bytes : Bytes)
    (hex : connExists st.connections a = false) (hlen : bytes.length ≠ 0)
    (halive : st.receiverAlive = true) :
    (recv_from M cfg st (.datagram a bytes) time).1.eventQueue =
      st.eventQueue ++ SocketEvent.connect a ::
        (M.processIncoming (M.createAnonymous cfg a time) bytes time).2.1
    ∧ ∀ ev ∈ (M.processIncoming (M.createAnonymous cfg a time) bytes time).2.1,
        ∃ l1 l2,
          (recv_from M cfg st (.datagram a bytes) time).1.eventQueue
              = l1 ++ SocketEvent.connect a :: l2
          ∧ ev ∈ l2 := by
  obtain ⟨_, hqueue⟩ := recv_from_unknown M cfg st time a bytes hex hlen halive
  exact ⟨hqueue, fun ev hev => ⟨st.eventQueue, _, hqueue, hev⟩⟩

/-- Witness for C2: on first contact from peer 5 the queue is
`[Connect 5, Packet …]`, with the derived packet event after the connect. -/
theorem connect_before_derived_packets_witness :
    (recv_from pingModel ⟨1⟩ initialEngineState (.datagram 5 [1]) 0).1.eventQueue
        = [SocketEvent.connect 5, SocketEvent.packet (unreliablePacket 5 [1])]
    ∧ ∃ l1 l2,
        (recv_from pingModel ⟨1⟩ initialEngineState (.datagram 5 [1]) 0).1.eventQueue
            = l1 ++ SocketEvent.connect 5 :: l2
        ∧ SocketEvent.packet (unreliablePacket 5 [1]) ∈ l2 := by
  have h := connect_before_derived_packets pingModel ⟨1⟩ initialEngineState 0 5 [1]
    rfl (by decide) rfl
  exact ⟨by rw [h.1]; rfl, h.2 _ (by decide)⟩

/-- Claim C3: in Phase S, the dropped waiting packets are each re-processed
through `process_outgoing` with `Reliable` delivery and their original ordering
guarantee and item identifier (the claim-side `specRetransmit`), the fresh
submission is processed with item identifier `None`, and the resulting wire
datagrams go out in that order: all retransmissions before the fresh
datagram(s).  Stated for a run without a link conditioner in which every
`process_outgoing` call succeeds. -/
theorem send_to_retransmissions_before_fresh {C : Type} (M : ConnModel C)
    (cfg : Config) (st : EngineState C) (p : Packet) (time : Time)
    (conn1 conn2 conn3 : C) (dropped : List WaitingPacket)
    (processed : List Outgoing) (fresh : Outgoing)
    (hlc : st.linkConditioner = Option.none)
    (hgd : M.gatherDroppedPackets
        (get_or_insert_connection M st.connections cfg p.addr time).2
      = (conn1, dropped))
    (hspec : specRetransmit M time conn1 dropped = some (conn2, processed))
    (hfresh : M.processOutgoing conn2 p.payload p.deliveryGuarantee
        p.orderGuarantee Option.none time = (conn3, .ok fresh)) :
    (send_to M cfg st p time).1.wireOut =
      st.wireOut ++
        ((processed ++ [fresh]).flatMap Outgoing.datagrams).map
          (fun d => (p.addr, d))
    ∧ (send_to M cfg st p time).2 =
        .ok (((processed ++ [fresh]).flatMap Outgoing.datagrams).map
          List.length).sum := by
  have hpd : processDropped M conn1 time dropped = (conn2, processed) :=
    processDropped_of_spec M time dropped conn1 conn2 processed hspec
  constructor <;>
    simp [send_to, hgd, hpd, hfresh, sendOutgoings_condNone, hlc]

/-- Witness for C3: with `okModel` the dropped payload `[9]` is retransmitted
on the wire before the fresh payload `[1]`, and two datagrams' bytes are
reported. -/
theorem send_to_retransmissions_before_fresh_witness :
    (send_to okModel ⟨1⟩ initialEngineState (unreliablePacket 7 [1]) 0).1.wireOut
        = [(7, [9]), (7, [1])]
    ∧ (send_to okModel ⟨1⟩ initialEngineState (unreliablePacket 7 [1]) 0).2
        = .ok 2 := by
  have h := send_to_retransmissions_before_fresh okModel ⟨1⟩ initialEngineState
    (unreliablePacket 7 [1]) 0 0 1 2 [⟨[9], .none, some 4⟩] [.packet [9]]
    (.packet [1]) rfl rfl rfl rfl
  exact ⟨by rw [h.1]; rfl, by rw [h.2]; rfl⟩

/-- Counterexample to claim C4 as stated: with `dropFailModel` the gathered
dropped packet (payload `[99]`, its original ordering guarantee and item
identifier 4) fails `process_outgoing`, yet `send_to` neither aborts the
submitted packet nor surfaces any error to its caller: it returns `Ok 1` and
the freshly submitted datagram `[1]` still goes out on the wire.  The `Err` of
the retransmission call is silently discarded by the `flat_map` over the
`Result`. -/
theorem send_to_retransmission_failure_not_propagated :
    (dropFailModel.processOutgoing 0 [99] .reliable .none (some 4) 0).2
        = .error (.protocolError 7)
    ∧ (send_to dropFailModel ⟨1⟩ initialEngineState (unreliablePacket 7 [1]) 0).2
        = .ok 1
    ∧ (send_to dropFailModel ⟨1⟩ initialEngineState
        (unreliablePacket 7 [1]) 0).1.wireOut = [(7, [1])] :=
  ⟨rfl, rfl, rfl⟩

/-- Claim C4 amended: a `process_outgoing` failure on a retransmitted (dropped)
waiting packet is silently discarded — that retransmission is skipped and the
loop moves on — and processing of the submitted packet continues; only a
failure on the fresh submission aborts the packet's processing and surfaces
the error to `send_to`'s caller (leaving the wire untouched). -/
theorem send_to_fresh_failure_only {C : Type} (M : ConnModel C) (cfg : Config)
    (st : EngineState C) (p : Packet) (time : Time)
    (conn1 conn2 : C) (dropped : List WaitingPacket) (processed : List Outgoing)
    (hgd : M.gatherDroppedPackets
        (get_or_insert_connection M st.connections cfg p.addr time).2
      = (conn1, dropped))
    (hpd : processDropped M conn1 time dropped = (conn2, processed)) :
    (∀ (cw cw' : C) (wp : WaitingPacket) (rest : List WaitingPacket)
        (e : ErrorKind),
      M.processOutgoing cw wp.payload .reliable wp.orderingGuarantee
          wp.itemIdentifier time = (cw', .error e) →
      processDropped M cw time (wp :: rest) = processDropped M cw' time rest)
    ∧ (∀ (conn3 : C) (fresh : Outgoing),
        M.processOutgoing conn2 p.payload p.deliveryGuarantee p.orderGuarantee
            Option.none time = (conn3, .ok fresh) →
        ∃ n, (send_to M cfg st p time).2 = .ok n)
    ∧ (∀ (conn3 : C) (e : ErrorKind),
        M.processOutgoing conn2 p.payload p.deliveryGuarantee p.orderGuarantee
            Option.none time = (conn3, .error e) →
        (send_to M cfg st p time).2 = .error e
        ∧ (send_to M cfg st p time).1.wireOut = st.wireOut) := by
  refine ⟨fun cw cw' wp rest e h => ?_, fun conn3 fresh h => ?_,
    fun conn3 e h => ?_⟩
  · simp [processDropped, h]
  · simp only [send_to, hgd, hpd, h]
    exact ⟨_, rfl⟩
  · constructor <;> simp [send_to, hgd, hpd, h]

/-- Witness for the amended C4: with `dropFailModel`, whose only gathered
retransmission fails, `send_to` still reports success. -/
theorem send_to_fresh_failure_only_witness :
    ∃ n, (send_to dropFailModel ⟨1⟩ initialEngineState
      (unreliablePacket 7 [1]) 0).2 = .ok n :=
  (send_to_fresh_failure_only dropFailModel ⟨1⟩ initialEngineState
      (unreliablePacket 7 [1]) 0 0 0 [⟨[99], .none, some 4⟩] [] rfl rfl).2.1
    0 (.packet [1]) rfl

/-- Counterexample to claim C5 as stated: a hard receive error does not end
Phase R.  With a hard error followed by a pending datagram from peer 5, the
loop still processes that datagram — its `Connect` and derived `Packet` events
appear — while the hard error is logged (once inside `recv_from` and once by
the loop in `manual_poll`). -/
theorem hard_error_does_not_end_phase_r :
    (recvLoop pingModel ⟨1⟩ initialEngineState 0
        [.hardError, .datagram 5 [1]]).eventQueue
      = [SocketEvent.connect 5, SocketEvent.packet (unreliablePacket 5 [1])]
    ∧ (recvLoop pingModel ⟨1⟩ initialEngineState 0
        [.hardError, .datagram 5 [1]]).errorLog
      = [.ioOther, .ioOther] :=
  ⟨rfl, rfl⟩

/-- Claim C5 amended: a hard receive error is logged (by `recv_from` and again
by the loop) and the receive loop then continues attempting further receives
in the same tick; only a would-block indication exits Phase R. -/
theorem hard_receive_error_logged_loop_continues {C : Type} (M : ConnModel C)
    (cfg : Config) (st : EngineState C) (time : Time) (rest : List RecvStep) :
    recvLoop M cfg st time (.hardError :: rest)
        = recvLoop M cfg (logError (logError st .ioOther) .ioOther) time rest
    ∧ recvLoop M cfg st time (.wouldBlock :: rest) = st := by
  constructor <;> simp [recvLoop, recv_from]

/-- An engine state with a link conditioner that always permits sending, its
decision cursor at 0. -/
def condState : EngineState Unit :=
  { (initialEngineState : EngineState Unit) with
    linkConditioner := some ⟨(fun _ => true), 0⟩ }

/-- Counterexample to claim C6 as stated: one fragmented `Outgoing` containing
two wire datagrams consumes exactly one conditioner decision, not one per wire
datagram — both fragments go out but the decision cursor advanced only by 1. -/
theorem conditioner_not_once_per_datagram :
    (send_to fragModel ⟨1⟩ condState (unreliablePacket 3 [8]) 0).1.wireOut
        = [(3, [1]), (3, [2])]
    ∧ ((send_to fragModel ⟨1⟩ condState
          (unreliablePacket 3 [8]) 0).1.linkConditioner).map LinkConditioner.idx
        = some 1 :=
  ⟨rfl, rfl⟩

/-- Claim C6 amended: `should_send` is consulted once per `Outgoing` value —
all wire datagrams of a fragmented `Outgoing` share a single decision — and
when no link conditioner is set every wire datagram of every `Outgoing` is
sent, as if `should_send` always returned true. -/
theorem conditioner_once_per_outgoing {C : Type} (st : EngineState C)
    (a : Addr) (outs : List Outgoing) :
    (∀ (dec : Nat → Bool) (i : Nat), st.linkConditioner = some ⟨dec, i⟩ →
      (sendOutgoings st a outs).1.linkConditioner
        = some ⟨dec, i + outs.length⟩)
    ∧ (st.linkConditioner = Option.none →
      (sendOutgoings st a outs).1.wireOut =
        st.wireOut ++ (outs.flatMap Outgoing.datagrams).map (fun d => (a, d))) := by
  refine ⟨fun dec i h => sendOutgoings_conditioner a outs st dec i h,
    fun h => ?_⟩
  rw [sendOutgoings_condNone a outs st h]

/-- Witness for the amended C6: a two-fragment `Outgoing` plus a single-packet
`Outgoing` advance the always-true conditioner's cursor by exactly 2 (one per
`Outgoing`), not by 3 (one per wire datagram). -/
theorem conditioner_once_per_outgoing_witness :
    (sendOutgoings condState 3
        [Outgoing.fragments [[1], [2]], Outgoing.packet [5]]).1.linkConditioner
      = some ⟨(fun _ => true), 0 + 2⟩ :=
  (conditioner_once_per_outgoing condState 3
      [Outgoing.fragments [[1], [2]], Outgoing.packet [5]]).1
    (fun _ => true) 0 rfl

/-- An engine state holding one connection, for peer 4, in its table. -/
def idleState : EngineState Unit :=
  { (initialEngineState : EngineState Unit) with connections := [(4, ())] }

/-- Claim C7: in Phase T every address returned by `idle_connections` is first
removed from the table and only then is `SocketEvent::Timeout(addr)` emitted
(the emitting state no longer contains the address); with a live consumer all
returned addresses end up removed and the timeout events appear on the channel
in enumeration order; and a channel-send failure in `handle_idle_clients` is
logged by `manual_poll` without terminating the tick. -/
theorem idle_removed_then_timeout {C : Type} (M : ConnModel C) (cfg : Config)
    (st : EngineState C) (time : Time) (halive : st.receiverAlive = true) :
    (handle_idle_clients M cfg st time).2 = Option.none
    ∧ (handle_idle_clients M cfg st time).1.eventQueue =
        st.eventQueue ++
          (idle_connections M st.connections cfg.idleConnectionTimeout
            time).map SocketEvent.timeout
    ∧ (∀ a ∈ idle_connections M st.connections cfg.idleConnectionTimeout time,
        connExists (handle_idle_clients M cfg st time).1.connections a = false)
    ∧ (∀ (s : EngineState C) (a : Addr), s.receiverAlive = true →
        idleStep s a =
          ({ s with
              connections := removeConn s.connections a
              eventQueue := s.eventQueue ++ [SocketEvent.timeout a] },
            Option.none)
        ∧ connExists (removeConn s.connections a) a = false)
    ∧ (∀ (s st3 : EngineState C) (e : ErrorKind),
        handle_idle_clients M cfg s time = (st3, some e) →
        manual_poll M cfg s [] [] time = logError st3 e) := by
  obtain ⟨h1, h2, h3, _⟩ := idleFold_alive
    (idle_connections M st.connections cfg.idleConnectionTimeout time) st halive
  refine ⟨h1, h2, fun a ha => ?_, fun s a hs =>
    ⟨idleStep_alive s a hs, connExists_removeConn_self s.connections a⟩,
    fun s st3 e h5 => ?_⟩
  · rw [show (handle_idle_clients M cfg st time).1.connections = _ from h3]
    exact foldl_removeConn_absent _ st.connections a ha
  · simp [manual_poll, recvLoop, sendLoop, h5]

/-- Witness for C7: peer 4 (idle since time 0, timeout 1, now 5) is removed
and its `Timeout` emitted. -/
theorem idle_removed_then_timeout_witness :
    (handle_idle_clients pingModel ⟨1⟩ idleState 5).2 = Option.none
    ∧ (handle_idle_clients pingModel ⟨1⟩ idleState 5).1.eventQueue =
        idleState.eventQueue ++
          (idle_connections pingModel idleState.connections
            (Config.mk 1).idleConnectionTimeout 5).map SocketEvent.timeout
    ∧ connExists (handle_idle_clients pingModel ⟨1⟩ idleState 5).1.connections 4
        = false := by
  have h := idle_removed_then_timeout pingModel ⟨1⟩ idleState 5 (by rfl)
  exact ⟨h.1, h.2.1, h.2.2.1 4 (by exact List.mem_cons_self 4 [])⟩

lemma recv_from_datagram_not_empty {C : Type} (M : ConnModel C) (cfg : Config)
    (st : EngineState C) (time : Time) (a : Addr) (bytes : Bytes) :
    (recv_from M cfg st (.datagram a bytes) time).2 ≠ .ok .empty := by
  by_cases hlen : bytes.length = 0
  · simp [recv_from, hlen]
  · by_cases hex : connExists st.connections a
    · cases hc : lookupConn st.connections a with
      | none => simp [connExists, hc] at hex
      | some c =>
          rcases hpi : M.processIncoming c bytes time with ⟨c', evs, err⟩
          cases err <;> simp [recv_from, hlen, hex, hc, hpi]
    · rw [Bool.not_eq_true] at hex
      have hc : lookupConn st.connections a = Option.none :=
        lookupConn_eq_none hex
      rcases hpi : M.processIncoming (M.createAnonymous cfg a time) bytes time
        with ⟨c', evs, err⟩
      by_cases halive : st.receiverAlive <;> cases err <;>
        simp [recv_from, hlen, hex, hc, hpi, sendEvent, halive]

/-- Claim C8: no inbound datagram stops the receive loop: after any datagram
(zero-length, rejected by `process_incoming`, or valid) the loop goes on to the
remaining pending datagrams — only would-block exits — and a zero-length
datagram merely logs the short-receive error, leaving table, queue and wire
untouched.  (The embedding is total, so no input can make the engine's step
undefined.) -/
theorem malformed_datagram_skipped_loop_continues {C : Type} (M : ConnModel C)
    (cfg : Config) (st : EngineState C) (time : Time) (a : Addr) (bytes : Bytes)
    (rest : List RecvStep) :
    recvLoop M cfg st time (.datagram a bytes :: rest)
        = recvLoop M cfg (recvAdvance M cfg st (.datagram a bytes) time) time rest
    ∧ (bytes.length = 0 →
        recvAdvance M cfg st (.datagram a bytes) time
          = logError st .receivedDataToShort) := by
  constructor
  · have hne := recv_from_datagram_not_empty M cfg st time a bytes
    rcases h : recv_from M cfg st (.datagram a bytes) time with ⟨st', r⟩
    rw [h] at hne
    cases r with
    | ok u =>
        cases u with
        | empty => exact absurd rfl hne
        | maybeMore => simp [recvLoop, recvAdvance, h]
    | error e => simp [recvLoop, recvAdvance, h]
  · intro h0
    simp [recvAdvance, recv_from, h0]

/-- Witness for C8: a zero-length datagram from peer 5 is logged and skipped,
and the loop continues with the next pending datagram. -/
theorem malformed_datagram_skipped_loop_continues_witness :
    recvLoop pingModel ⟨1⟩ initialEngineState 0
        [.datagram 5 [], .datagram 5 [1]]
      = recvLoop pingModel ⟨1⟩
          (recvAdvance pingModel ⟨1⟩ initialEngineState (.datagram 5 []) 0) 0
          [.datagram 5 [1]]
    ∧ recvAdvance pingModel ⟨1⟩ initialEngineState (.datagram 5 []) 0
        = logError initialEngineState .receivedDataToShort := by
  have h := malformed_datagram_skipped_loop_continues pingModel ⟨1⟩
    initialEngineState 0 5 [] [.datagram 5 [1]]
  exact ⟨h.1, h.2 rfl⟩

/-- Claim C10: in Phase S the table entry for the destination is created
before any payload processing, so it is present after `send_to` even when
`process_outgoing` rejects the submission and nothing is sent: whenever
`send_to` returns an error, the wire output is unchanged yet the peer's entry
is in the table. -/
theorem send_path_entry_persists_on_failure {C : Type} (M : ConnModel C)
    (cfg : Config) (st : EngineState C) (p : Packet) (time : Time) :
    connExists ((send_to M cfg st p time).1).connections p.addr = true
    ∧ ∀ e : ErrorKind, (send_to M cfg st p time).2 = .error e →
        (send_to M cfg st p time).1.wireOut = st.wireOut := by
  constructor
  · simp only [send_to]
    split
    · simp [connExists_updateConn, connExists_get_or_insert]
    · rw [sendOutgoings_connections]
      simp [connExists_updateConn, connExists_get_or_insert]
  · intro e herr
    simp only [send_to] at herr ⊢
    split at herr
    case _ heq => rfl
    case _ fresh heq => simp at herr

/-- Witness for C10: with `alwaysFailModel`, `send_to` fails and sends
nothing, yet peer 7's entry is in the table afterwards. -/
theorem send_path_entry_persists_on_failure_witness :
    connExists ((send_to alwaysFailModel ⟨1⟩ initialEngineState
        (unreliablePacket 7 [1]) 0).1).connections 7 = true
    ∧ (send_to alwaysFailModel ⟨1⟩ initialEngineState
        (unreliablePacket 7 [1]) 0).1.wireOut
      = (initialEngineState (C := Unit)).wireOut := by
  have h := send_path_entry_persists_on_failure alwaysFailModel ⟨1⟩
    initialEngineState (unreliablePacket 7 [1]) 0
  exact ⟨h.1, h.2 (.protocolError 9) rfl⟩

end Laminar
